import Mathlib

/-!
# Verification of the zamio audio-recognition core

Shallow embedding of the recognition matcher, confidence gate, hash
generator, spectrogram peak picker and play-session aggregator of the
`zamio_backend` repository, together with theorems settling the claims of
the specification against the embedded code.

Conventions:
* machine floats of the source are modelled as rationals (`ℚ`);
* Django querysets are modelled as Lean lists in database result order;
* timestamps are rationals counting seconds.
-/

namespace Zamio

/-! ## Vote-map machinery shared by matcher and aggregator

`keysInOrder l` lists the distinct elements of `l` in order of first
occurrence: this is the iteration order of a Python `dict`/`Counter` whose
keys were inserted while scanning `l` left to right. -/

def keysInOrderAux [DecidableEq K] (acc : List K) : List K → List K
  | [] => acc
  | k :: ks => if k ∈ acc then keysInOrderAux acc ks else keysInOrderAux (acc ++ [k]) ks

def keysInOrder [DecidableEq K] (l : List K) : List K :=
  keysInOrderAux [] l

/-- `CPython heapq.nlargest(1, items, key)` is `max(items, key)`: scan left to
right keeping the current best and replace it only on a strictly larger key.
`mostCommon1 seq` is therefore `Counter(seq).most_common(1)[0][0]`: the first
key, in insertion order, whose multiplicity in `seq` is maximal. -/
def mostCommon1 [BEq K] [DecidableEq K] (seq : List K) : Option K :=
  match keysInOrder seq with
  | [] => none
  | k :: ks => some (ks.foldl (fun best k2 => if seq.count best < seq.count k2 then k2 else best) k)

/-! ## Data model (fingerprint_engine/models.py)

`Fingerprint(song, hash CHAR(20), offset)` with
`unique_together = (song, offset, hash)`. -/

structure Fingerprint where
  song_id : ℕ
  hash : String
  offset : ℤ
deriving DecidableEq, Repr

/-! ## The matcher and confidence gate (fingerprint_engine/views.py, `detect_audio_match`) -/

/-- The reason strings of the negative JSON responses of
`detect_audio_match`, as a closed enumeration.  Constructors correspond to
the literal payloads `"No fingerprints extracted"`, `"No matching hashes in
DB"`, `"No offset alignment found"` and `"Low confidence match"`. -/
inductive NegReason where
  | noFingerprintsExtracted
  | noIndexHits
  | noOffsetAlignment
  | lowConfidence
deriving DecidableEq, Repr

/-- The responses `detect_audio_match` can produce after a file was
uploaded: an HTTP error payload, a negative match, or a positive match
carrying the song id, the offset difference, the vote count and the two
confidence percentages. -/
inductive DetectResponse where
  | error (status : ℕ) (msg : String)
  | negative (reason : NegReason)
  | positive (song_id : ℕ) (offsetDiff : ℤ) (votes : ℕ) (inputConf dbConf : ℚ)
deriving DecidableEq, Repr

def DetectResponse.isPositive : DetectResponse → Bool
  | .positive .. => true
  | _ => false

/-- `true` for the match outcomes (positive or negative), `false` for HTTP
error payloads. -/
def DetectResponse.isOutcome : DetectResponse → Bool
  | .positive .. => true
  | .negative _ => true
  | .error .. => false

/-- `query_hashes = [h for h, _ in query_fingerprints]` -/
def queryHashes (query : List (String × ℤ)) : List String :=
  query.map Prod.fst

/-- `db_fps = Fingerprint.objects.filter(hash__in=query_hashes)`: the rows
of the fingerprint table whose hash occurs among the query hashes, in
database result order. -/
def dbHits (db : List Fingerprint) (query : List (String × ℤ)) : List Fingerprint :=
  db.filter (fun fp => decide (fp.hash ∈ queryHashes query))

/-- The sequence of `(song_id, offset_diff)` keys incremented in
`match_map`, in iteration order: outer loop over the matched rows, inner
loop over the query fingerprints, guarded by `fp.hash == h`. -/
def voteSeq (db : List Fingerprint) (query : List (String × ℤ)) : List (ℕ × ℤ) :=
  (dbHits db query).flatMap (fun fp =>
    (query.filter (fun e => fp.hash == e.1)).map (fun e => (fp.song_id, fp.offset - e.2)))

/-- `match_map.most_common(1)[0][0]` -/
def topCandidate (db : List Fingerprint) (query : List (String × ℤ)) : Option (ℕ × ℤ) :=
  mostCommon1 (voteSeq db query)

/-- `match_map[(song_id, offset_diff)]` -/
def votesFor (db : List Fingerprint) (query : List (String × ℤ)) (k : ℕ × ℤ) : ℕ :=
  (voteSeq db query).count k

/-- `Fingerprint.objects.filter(song_id=song_id).count()` -/
def songCount (db : List Fingerprint) (s : ℕ) : ℕ :=
  (db.filter (fun fp => fp.song_id == s)).length

/-- `input_confidence = (match_count / total_query_hashes) * 100` -/
def inputConfidence (db : List Fingerprint) (query : List (String × ℤ)) (k : ℕ × ℤ) : ℚ :=
  (votesFor db query k : ℚ) / ((queryHashes query).length : ℚ) * 100

/-- `db_confidence = (match_count / total_song_hashes) * 100 if total_song_hashes else 0` -/
def dbConfidence (db : List Fingerprint) (query : List (String × ℤ)) (k : ℕ × ℤ) : ℚ :=
  if songCount db k.1 ≠ 0 then (votesFor db query k : ℚ) / (songCount db k.1 : ℚ) * 100 else 0

def MIN_MATCH_COUNT : ℕ := 50
def MIN_INPUT_CONF : ℚ := 20
def MIN_DB_CONF : ℚ := 5

/-- Embedding of the body of `detect_audio_match`
(src/fingerprint_engine/views.py).  `decodeOk` is whether
`convert_to_wav_ffmpeg` returned a path (`False` models an ffmpeg failure,
which the view answers with an HTTP 500 payload).  `query` is the result of
`extract_fingerprints` on the converted file; that helper catches every
exception and returns `[]`, so an undecodable or fingerprint-free input
reaches this function as the empty list. -/
def detect_audio_match (db : List Fingerprint) (decodeOk : Bool)
    (query : List (String × ℤ)) : DetectResponse :=
  if !decodeOk then .error 500 "Failed to convert audio to WAV"
  else if query.isEmpty then .negative .noFingerprintsExtracted
  else if (dbHits db query).isEmpty then .negative .noIndexHits
  else
    match topCandidate db query with
    | none => .negative .noOffsetAlignment
    | some k =>
      if votesFor db query k < MIN_MATCH_COUNT ∨ inputConfidence db query k < MIN_INPUT_CONF ∨
          dbConfidence db query k < MIN_DB_CONF then
        .negative .lowConfidence
      else
        .positive k.1 k.2 (votesFor db query k) (inputConfidence db query k) (dbConfidence db query k)

/-! ## Fingerprinting settings

The Django settings module is referenced by `fingerprint_engine/engine.py`
but is not among the sources.  Each constant below is *modelled from the
spec* (§6 configuration surface: `min_hash_dt=0`, `max_hash_dt=200`,
`hash_reduction=20`, `peak_neighborhood=10`, and §4.3's square
`(2ρ+1)×(2ρ+1)` neighborhood, i.e. `CONNECTIVITY_MASK = 2`, under which
`iterate_structure(generate_binary_structure(2, 2), ρ)` is exactly the
`(2ρ+1)×(2ρ+1)` square footprint). -/

def MIN_HASH_TIME_DELTA : ℤ := 0
def MAX_HASH_TIME_DELTA : ℤ := 200
def FINGERPRINT_REDUCTION : ℕ := 20
def PEAK_SORT : Bool := true
def PEAK_NEIGHBORHOOD_SIZE : ℕ := 10

/-! ## Hash generation (fingerprint_engine/engine.py, `generate_hashes`)

`hexDigest` abstracts `hashlib.sha1(...).hexdigest()`: an arbitrary
deterministic function from the canonical string `"f1|f2|dt"` to a hex
string.  The embedding is parametric in it; nothing below depends on the
concrete digest. -/

/-- `hashlib.sha1(f"{f1}|{f2}|{dt}").hexdigest()[:FINGERPRINT_REDUCTION]` -/
def hashPair (hexDigest : String → String) (f1 f2 : ℕ) (dt : ℤ) : String :=
  (hexDigest (toString f1 ++ "|" ++ toString f2 ++ "|" ++ toString dt)).take FINGERPRINT_REDUCTION

/-- The nested loop of `generate_hashes`: `for i in range(len(peaks))`,
`for j in range(1, fan_value)`, guarded by `(i + j) < len(peaks)` (the
out-of-range lookup is modelled by `peaks[i+j]? = none`).  `peaks.sort(key=
itemgetter(1))` is Python's stable sort by the time coordinate, modelled by
`List.insertionSort` (also stable). -/
def generate_hashes (hexDigest : String → String) (fan_value : ℕ)
    (peaks0 : List (ℕ × ℕ)) : List (String × ℕ) :=
  let peaks := if PEAK_SORT then List.insertionSort (fun a b => a.2 ≤ b.2) peaks0 else peaks0
  (List.range peaks.length).flatMap (fun i =>
    (List.range' 1 (fan_value - 1)).filterMap (fun j =>
      match peaks[i]?, peaks[i + j]? with
      | some p1, some p2 =>
        let dt : ℤ := (p2.2 : ℤ) - (p1.2 : ℤ)
        if MIN_HASH_TIME_DELTA ≤ dt ∧ dt ≤ MAX_HASH_TIME_DELTA then
          some (hashPair hexDigest p1.1 p2.1 dt, p1.2)
        else none
      | _, _ => none))

/-- The pairs claim C4 describes for one anchor peak `p` and the candidate
peaks that follow it. -/
def anchorHashes (hexDigest : String → String) (p : ℕ × ℕ)
    (cands : List (ℕ × ℕ)) : List (String × ℕ) :=
  cands.filterMap (fun p2 =>
    let dt : ℤ := (p2.2 : ℤ) - (p.2 : ℤ)
    if MIN_HASH_TIME_DELTA ≤ dt ∧ dt ≤ MAX_HASH_TIME_DELTA then
      some (hashPair hexDigest p.1 p2.1 dt, p.2)
    else none)

/-- The hash list exactly as claim C4 / spec §4.4 word it: each anchor peak
is paired with each of the next `F − 1` peaks of the time-sorted list, and
each pair within the Δt bounds emits `(H(f1, f2, dt), t1)`. -/
def specHashes (hexDigest : String → String) (fan_value : ℕ) :
    List (ℕ × ℕ) → List (String × ℕ)
  | [] => []
  | p :: rest =>
    anchorHashes hexDigest p (rest.take (fan_value - 1)) ++ specHashes hexDigest fan_value rest

/-! ## Peak picking (fingerprint_engine/engine.py, `get_2D_peaks`)

The spectrogram is a function `S : ℕ → ℕ → ℚ` restricted to `m` frequency
rows and `n` time columns (float dB magnitudes modelled as rationals).
`scipy.ndimage.maximum_filter` uses boundary mode `'reflect'`
(`(d c b a | a b c d | d c b a)`): the virtual extension is periodic with
period `2m`, which `reflectIdx` reproduces exactly.
`binary_erosion(..., border_value=1)` treats out-of-range cells as
background. -/

/-- Index of the `'reflect'`-mode virtual extension of a length-`m` axis. -/
def reflectIdx (m : ℕ) (i : ℤ) : ℕ :=
  let r := (i % (2 * (m : ℤ))).toNat
  if r < m then r else 2 * m - 1 - r

/-- Offsets `-ρ .. ρ` of the square footprint
`iterate_structure(generate_binary_structure(2, 2), ρ)`. -/
def neighborhoodOffsets (rho : ℕ) : List ℤ :=
  (List.range (2 * rho + 1)).map (fun k : ℕ => (k : ℤ) - (rho : ℤ))

/-- `maximum_filter(arr2D, footprint=neighborhood) == arr2D` at cell
`(f, t)`: the cell equals (hence is ≥) every value of its reflected
neighborhood. -/
def localMaxAt (S : ℕ → ℕ → ℚ) (m n rho : ℕ) (f t : ℕ) : Bool :=
  (neighborhoodOffsets rho).all (fun df =>
    (neighborhoodOffsets rho).all (fun dg =>
      decide (S (reflectIdx m ((f : ℤ) + df)) (reflectIdx n ((t : ℤ) + dg)) ≤ S f t)))

/-- `binary_erosion(arr2D == 0, structure=neighborhood, border_value=1)` at
cell `(f, t)`: every in-bounds cell of the neighborhood is zero
(out-of-bounds cells count as background because `border_value=1`). -/
def erodedBackgroundAt (S : ℕ → ℕ → ℚ) (m n rho : ℕ) (f t : ℕ) : Bool :=
  (neighborhoodOffsets rho).all (fun df =>
    (neighborhoodOffsets rho).all (fun dg =>
      let i := (f : ℤ) + df
      let j := (t : ℤ) + dg
      if 0 ≤ i ∧ i < (m : ℤ) ∧ 0 ≤ j ∧ j < (n : ℤ) then decide (S i.toNat j.toNat = 0)
      else true))

/-- `detected_peaks = local_max != eroded_background` (element-wise XOR). -/
def detectedPeakAt (S : ℕ → ℕ → ℚ) (m n rho : ℕ) (f t : ℕ) : Bool :=
  localMaxAt S m n rho f t != erodedBackgroundAt S m n rho f t

/-- All cells in `np.where` row-major order (frequency row first). -/
def allCells (m n : ℕ) : List (ℕ × ℕ) :=
  (List.range m).flatMap (fun f => (List.range n).map (fun t => (f, t)))

/-- `get_2D_peaks(arr2D, amp_min)`: the detected cells in `np.where` order,
then filtered by `amps > amp_min`. -/
def get_2D_peaks (S : ℕ → ℕ → ℚ) (m n : ℕ) (amp_min : ℚ) : List (ℕ × ℕ) :=
  ((allCells m n).filter
    (fun p => detectedPeakAt S m n PEAK_NEIGHBORHOOD_SIZE p.1 p.2)).filter
    (fun p => decide (amp_min < S p.1 p.2))

/-- The peak predicate exactly as claim C5 / spec §4.3 word it:
`S[f,t] > amp_min`, `S[f,t]` strictly greater than every *other* cell of
the `(2ρ+1)×(2ρ+1)` square neighborhood, and boundary cells (within `ρ` of
any edge) excluded. -/
def specIsPeak (S : ℕ → ℕ → ℚ) (m n rho : ℕ) (amp_min : ℚ) (f t : ℕ) : Bool :=
  decide (amp_min < S f t) &&
  decide (rho ≤ f ∧ f + rho < m ∧ rho ≤ t ∧ t + rho < n) &&
  (neighborhoodOffsets rho).all (fun df =>
    (neighborhoodOffsets rho).all (fun dg =>
      if df = 0 ∧ dg = 0 then true
      else decide (S ((f : ℤ) + df).toNat ((t : ℤ) + dg).toNat < S f t)))

/-! ## Match cache and play-session aggregation

`music_monitor22/models.py` (`MatchCache`, `PlayLog`) and
`music_monitor22/management/commands/process_match_cache.py`
(`Command.handle`).  Timestamps are rationals counting seconds;
`timedelta(minutes=3) = 180`, `timedelta(seconds=60) = 60`. -/

structure MatchRow where
  track : ℕ
  station : ℕ
  matched_at : ℚ
deriving DecidableEq, Repr

structure PlayRow where
  track : ℕ
  station : ℕ
  start_time : ℚ
  stop_time : ℚ
  duration : ℚ
  royalty_amount : ℚ
deriving DecidableEq, Repr

/-- Python `round(x, 2)`.  (CPython rounds half to even on the binary float
value; on the rational model we use `round`, which differs only at exact
half-way points of the scaled value.) -/
def round2 (x : ℚ) : ℚ := ((round (x * 100) : ℤ) : ℚ) / 100

/-- `Track.calculate_royalty(duration)` (src/artists/models.py):
`rate_per_second = 0.01`, `round(duration.total_seconds() * 0.01, 2)`. -/
def calculate_royalty (durationSeconds : ℚ) : ℚ :=
  round2 (durationSeconds * (1 / 100))

/-- `matched_at` arrives via `MatchCache.objects.create(..., matched_at=
suppliedMatchedAt)`, but the model field is declared
`matched_at = models.DateTimeField(auto_now_add=True)`
(src/music_monitor22/models.py line 12): Django's `pre_save` for an
`auto_now_add` field unconditionally replaces the supplied value with the
current time, so the stored value is the row's insertion time. -/
def createMatchCache (track station : ℕ) (suppliedMatchedAt insertionTime : ℚ) : MatchRow :=
  { track := track, station := station, matched_at := insertionTime }

/-- `receive_match` (music_monitor/views.py): parses `match_time` from the
request and calls `MatchCache.objects.create(track_id=..., station_id=...,
matched_at=match_time)`.  `insertionTime` is the wall-clock time at which
the row is committed. -/
def receive_match (track station : ℕ) (matchTime insertionTime : ℚ) : MatchRow :=
  createMatchCache track station matchTime insertionTime

structure AggState where
  cache : List MatchRow
  playlog : List PlayRow
deriving DecidableEq, Repr

/-- The rows of one `(track_id, station_id)` group inside the aggregation
window: `MatchCache.objects.filter(track_id=..., station_id=...,
matched_at__gte=time_window)`. -/
def groupMatches (window : ℚ) (k : ℕ × ℕ) (cache : List MatchRow) : List MatchRow :=
  cache.filter (fun r => decide (r.track = k.1 ∧ r.station = k.2 ∧ window ≤ r.matched_at))

/-- `matches.earliest('matched_at').matched_at` (defined as `0` on the
empty list; callers only use it under `count >= 3`). -/
def minMatched : List MatchRow → ℚ
  | [] => 0
  | r :: rs => rs.foldl (fun a x => min a x.matched_at) r.matched_at

/-- `matches.latest('matched_at').matched_at`. -/
def maxMatched : List MatchRow → ℚ
  | [] => 0
  | r :: rs => rs.foldl (fun a x => max a x.matched_at) r.matched_at

/-- The loop body of `Command.handle` for one `(track_id, station_id)`
group.  `group['count'] >= 3` is evaluated on the same filtered row set as
`matches` (groups are disjoint, so re-filtering the current cache yields
the annotated count).  The duplicate check is
`PlayLog.objects.filter(track=..., station_id=...,
start_time__range=(start - 60s, stop + 60s)).exists()`; `matches.delete()`
runs whenever `count >= 3`, emitted or not. -/
def processGroup (window : ℚ) (k : ℕ × ℕ) (st : AggState) : AggState :=
  let matchRows := groupMatches window k st.cache
  if 3 ≤ matchRows.length then
    let start := minMatched matchRows
    let stop := maxMatched matchRows
    let duration := stop - start
    let playlog2 :=
      if 30 ≤ duration then
        if st.playlog.any (fun p => decide (p.track = k.1 ∧ p.station = k.2 ∧
            start - 60 ≤ p.start_time ∧ p.start_time ≤ stop + 60)) then
          st.playlog
        else
          st.playlog ++ [{ track := k.1, station := k.2, start_time := start,
                           stop_time := stop, duration := duration,
                           royalty_amount := calculate_royalty duration }]
      else st.playlog
    { cache := st.cache.filter
        (fun r => !decide (r.track = k.1 ∧ r.station = k.2 ∧ window ≤ r.matched_at)),
      playlog := playlog2 }
  else st

/-- `Command.handle(now)`: `time_window = now - timedelta(minutes=3)`;
groups are the distinct `(track_id, station_id)` values of the cache rows
inside the window, in first-occurrence order; each group is processed by
`processGroup`. -/
def handle (now : ℚ) (st : AggState) : AggState :=
  let window := now - 180
  let keys := keysInOrder
    ((st.cache.filter (fun r => decide (window ≤ r.matched_at))).map (fun r => (r.track, r.station)))
  keys.foldl (fun s k => processGroup window k s) st

/-! ## Lemmas about `keysInOrder` and `mostCommon1` -/

theorem mem_keysInOrderAux [DecidableEq K] (l : List K) :
    ∀ (acc : List K) (a : K), a ∈ keysInOrderAux acc l ↔ a ∈ acc ∨ a ∈ l := by
  induction l with
  | nil =>
    intro acc a
    rw [keysInOrderAux]
    simp
  | cons k ks ih =>
    intro acc a
    rw [keysInOrderAux]
    by_cases hk : k ∈ acc
    · rw [if_pos hk, ih]
      by_cases hak : a = k
      · subst hak; simp [hk]
      · simp [hak]
    · rw [if_neg hk, ih]
      simp [List.mem_append, or_assoc]

theorem mem_keysInOrder [DecidableEq K] (l : List K) (a : K) : a ∈ keysInOrder l ↔ a ∈ l := by
  rw [keysInOrder, mem_keysInOrderAux]
  simp

theorem nodup_keysInOrderAux [DecidableEq K] (l : List K) :
    ∀ acc : List K, acc.Nodup → (keysInOrderAux acc l).Nodup := by
  induction l with
  | nil =>
    intro acc h
    rw [keysInOrderAux]
    exact h
  | cons k ks ih =>
    intro acc h
    rw [keysInOrderAux]
    by_cases hk : k ∈ acc
    · rw [if_pos hk]
      exact ih acc h
    · rw [if_neg hk]
      refine ih _ ?_
      rw [List.nodup_append]
      refine ⟨h, List.nodup_singleton k, fun a ha hb => ?_⟩
      rw [List.mem_singleton] at hb
      subst hb
      exact hk ha

theorem nodup_keysInOrder [DecidableEq K] (l : List K) : (keysInOrder l).Nodup :=
  nodup_keysInOrderAux l [] List.nodup_nil

/-- The `max`-style fold used by `Counter.most_common(1)`. -/
def pickMax (f : K → ℕ) (k0 : K) (ks : List K) : K :=
  ks.foldl (fun best k2 => if f best < f k2 then k2 else best) k0

theorem pickMax_cons (f : K → ℕ) (k0 k1 : K) (ks : List K) :
    pickMax f k0 (k1 :: ks) = pickMax f (if f k0 < f k1 then k1 else k0) ks := rfl

theorem le_pickMax (f : K → ℕ) : ∀ (ks : List K) (k0 : K), f k0 ≤ f (pickMax f k0 ks) := by
  intro ks
  induction ks with
  | nil => intro k0; exact le_refl _
  | cons k1 ks ih =>
    intro k0
    rw [pickMax_cons]
    by_cases h : f k0 < f k1
    · rw [if_pos h]; exact le_trans h.le (ih k1)
    · rw [if_neg h]; exact ih k0

/-- `pickMax` returns the first maximal element: everything strictly before
it in the scanned list has a strictly smaller key, everything after it a
smaller-or-equal key. -/
theorem pickMax_spec (f : K → ℕ) : ∀ (ks : List K) (k0 : K),
    ∃ l1 l2, k0 :: ks = l1 ++ pickMax f k0 ks :: l2
      ∧ (∀ a ∈ l1, f a < f (pickMax f k0 ks)) ∧ (∀ b ∈ l2, f b ≤ f (pickMax f k0 ks)) := by
  intro ks
  induction ks with
  | nil =>
    intro k0
    exact ⟨[], [], rfl, fun a ha => absurd ha (List.not_mem_nil a),
      fun b hb => absurd hb (List.not_mem_nil b)⟩
  | cons k1 ks ih =>
    intro k0
    rw [pickMax_cons]
    by_cases h : f k0 < f k1
    · rw [if_pos h]
      obtain ⟨l1, l2, hdec, hlt, hle⟩ := ih k1
      refine ⟨k0 :: l1, l2, ?_, ?_, hle⟩
      · rw [List.cons_append, ← hdec]
      · intro a ha
        rcases List.mem_cons.mp ha with rfl | ha2
        · exact lt_of_lt_of_le h (le_pickMax f ks k1)
        · exact hlt a ha2
    · rw [if_neg h]
      obtain ⟨l1, l2, hdec, hlt, hle⟩ := ih k0
      cases l1 with
      | nil =>
        simp only [List.nil_append] at hdec
        injection hdec with h1 h2
        refine ⟨[], k1 :: ks, ?_, fun a ha => absurd ha (List.not_mem_nil a), ?_⟩
        · rw [List.nil_append, ← h1]
        · intro b hb
          rcases List.mem_cons.mp hb with rfl | hb2
          · rw [← h1]; exact le_of_not_lt h
          · exact hle b (h2 ▸ hb2)
      | cons a l1t =>
        rw [List.cons_append] at hdec
        injection hdec with h1 h2
        subst h1
        refine ⟨k0 :: k1 :: l1t, l2, ?_, ?_, hle⟩
        · rw [List.cons_append, List.cons_append, ← h2]
        · intro x hx
          have hk0 : f k0 < f (pickMax f k0 ks) := hlt k0 (List.mem_cons_self k0 l1t)
          rcases List.mem_cons.mp hx with rfl | hx2
          · exact hk0
          · rcases List.mem_cons.mp hx2 with rfl | hx3
            · exact lt_of_le_of_lt (le_of_not_lt h) hk0
            · exact hlt x (List.mem_cons_of_mem _ hx3)

theorem mostCommon1_eq_pickMax [BEq K] [DecidableEq K] (seq : List K) :
    mostCommon1 seq = match keysInOrder seq with
      | [] => none
      | k :: ks => some (pickMax (seq.count) k ks) := rfl

/-- `Counter(seq).most_common(1)` returns a key of maximal multiplicity,
and among the maximal keys the one whose first insertion into the counter
came earliest. -/
theorem mostCommon1_spec [BEq K] [LawfulBEq K] [DecidableEq K] (seq : List K) (k : K)
    (h : mostCommon1 seq = some k) :
    k ∈ seq ∧ (∀ k2, seq.count k2 ≤ seq.count k) ∧
      ∃ l1 l2, keysInOrder seq = l1 ++ k :: l2 ∧ ∀ a ∈ l1, seq.count a < seq.count k := by
  rw [mostCommon1_eq_pickMax] at h
  cases hko : keysInOrder seq with
  | nil => rw [hko] at h; cases h
  | cons k0 ks =>
    rw [hko] at h
    injection h with h1
    obtain ⟨l1, l2, hdec, hlt, hle⟩ := pickMax_spec (seq.count) ks k0
    rw [h1] at hdec hlt hle
    have hkmem : k ∈ keysInOrder seq := by
      rw [hko, hdec]
      exact List.mem_append_right l1 (List.mem_cons_self k l2)
    refine ⟨(mem_keysInOrder seq k).mp hkmem, ?_, l1, l2, hdec, hlt⟩
    intro k2
    by_cases h2 : k2 ∈ seq
    · have hmem2 : k2 ∈ l1 ++ k :: l2 := by
        have h3 : k2 ∈ keysInOrder seq := (mem_keysInOrder seq k2).mpr h2
        rw [hko, hdec] at h3
        exact h3
      rcases List.mem_append.mp hmem2 with hin1 | hin2
      · exact (hlt k2 hin1).le
      · rcases List.mem_cons.mp hin2 with rfl | hin3
        · exact le_refl _
        · exact hle k2 hin3
    · rw [List.count_eq_zero_of_not_mem h2]
      exact Nat.zero_le _

/-! ## Claim C1: the confidence gate -/

/-- C1: for every recognition call that reaches the confidence gate
(decode succeeded, fingerprints were extracted, the index returned hits)
with top candidate `k`, the outcome is Positive iff the vote count is at
least `MIN_MATCH_COUNT = 50`, the input confidence at least
`MIN_INPUT_CONF = 20.0 %` and the db confidence at least
`MIN_DB_CONF = 5.0 %`; otherwise it is Negative with the reason
`lowConfidence`, a member of the closed reason enumeration `NegReason`. -/
theorem confidence_gate_c1 (db : List Fingerprint) (query : List (String × ℤ))
    (hq : query ≠ []) (hhits : dbHits db query ≠ []) (k : ℕ × ℤ)
    (htop : topCandidate db query = some k) :
    ((detect_audio_match db true query).isPositive = true ↔
      (MIN_MATCH_COUNT ≤ votesFor db query k ∧ MIN_INPUT_CONF ≤ inputConfidence db query k ∧
        MIN_DB_CONF ≤ dbConfidence db query k))
    ∧ (¬(MIN_MATCH_COUNT ≤ votesFor db query k ∧ MIN_INPUT_CONF ≤ inputConfidence db query k ∧
        MIN_DB_CONF ≤ dbConfidence db query k) →
      detect_audio_match db true query = .negative .lowConfidence) := by
  have hq2 : query.isEmpty = false := by
    cases query with
    | nil => exact absurd rfl hq
    | cons a l => rfl
  have hh2 : (dbHits db query).isEmpty = false := by
    cases hd : dbHits db query with
    | nil => exact absurd hd hhits
    | cons a l => rfl
  have hform : detect_audio_match db true query =
      if votesFor db query k < MIN_MATCH_COUNT ∨ inputConfidence db query k < MIN_INPUT_CONF ∨
          dbConfidence db query k < MIN_DB_CONF then
        .negative .lowConfidence
      else
        .positive k.1 k.2 (votesFor db query k) (inputConfidence db query k)
          (dbConfidence db query k) := by
    unfold detect_audio_match
    rw [if_neg (by simp), if_neg (by simp [hq2]), if_neg (by simp [hh2]), htop]
  constructor
  · rw [hform]
    by_cases hcond : votesFor db query k < MIN_MATCH_COUNT ∨
        inputConfidence db query k < MIN_INPUT_CONF ∨ dbConfidence db query k < MIN_DB_CONF
    · rw [if_pos hcond]
      constructor
      · intro hpos; cases hpos
      · intro hthr
        rcases hcond with h | h | h
        · exact absurd hthr.1 (not_le.mpr h)
        · exact absurd hthr.2.1 (not_le.mpr h)
        · exact absurd hthr.2.2 (not_le.mpr h)
    · rw [if_neg hcond]
      push_neg at hcond
      exact ⟨fun _ => ⟨hcond.1, hcond.2.1, hcond.2.2⟩, fun _ => rfl⟩
  · intro hthr
    rw [hform, if_pos ?_]
    by_contra hno
    push_neg at hno
    exact hthr ⟨hno.1, hno.2.1, hno.2.2⟩

/-- Witness for C1 at a concrete gate-reaching call: a single index row and
a single query fingerprint give one vote, which fails the `50`-vote
threshold, so the gate answers `lowConfidence`. -/
theorem confidence_gate_c1_witness :
    detect_audio_match [⟨1, "a", 3⟩] true [("a", 1)] = .negative .lowConfidence :=
  (confidence_gate_c1 [⟨1, "a", 3⟩] [("a", 1)] (by decide) (by decide) (1, 2) (by decide)).2
    (by intro h; exact absurd h.1 (by decide))

/-! ## Claim C2: which candidate the matcher returns -/

/-- C2 counterexample: two songs tie at one vote each for their respective
`(song_id, Δ)` keys, and the matcher returns song `1`, not the higher
song id `2` the claim requires. -/
theorem matcher_tie_c2_counterexample :
    topCandidate [⟨1, "a", 5⟩, ⟨2, "a", 5⟩] [("a", 0)] = some (1, 5) ∧
    votesFor [⟨1, "a", 5⟩, ⟨2, "a", 5⟩] [("a", 0)] (2, 5) =
      votesFor [⟨1, "a", 5⟩, ⟨2, "a", 5⟩] [("a", 0)] (1, 5) := by decide

/-- C2 (amended): the matcher returns a `(song_id, Δ)` key of maximal vote
count, and among the maximal keys it returns the one whose first vote was
inserted into the vote map earliest (the scan order of database hits
against the query), not the one with the higher song id. -/
theorem matcher_first_maximal_c2 (db : List Fingerprint) (query : List (String × ℤ))
    (k : ℕ × ℤ) (htop : topCandidate db query = some k) :
    k ∈ voteSeq db query
    ∧ (∀ k2, votesFor db query k2 ≤ votesFor db query k)
    ∧ ∃ l1 l2, keysInOrder (voteSeq db query) = l1 ++ k :: l2
        ∧ ∀ a ∈ l1, votesFor db query a < votesFor db query k := by
  rw [topCandidate] at htop
  unfold votesFor
  exact mostCommon1_spec (voteSeq db query) k htop

/-- Witness for C2 (amended) at a concrete query. -/
theorem matcher_first_maximal_c2_witness :
    ((1 : ℕ), (5 : ℤ)) ∈ voteSeq [⟨1, "a", 5⟩] [("a", 0)] :=
  (matcher_first_maximal_c2 [⟨1, "a", 5⟩] [("a", 0)] (1, 5) (by decide)).1

/-! ## Claim C3: totality of recognize -/

/-- C3 counterexample: when ffmpeg fails to convert the upload
(`convert_to_wav_ffmpeg` returns `None`), `detect_audio_match` answers an
HTTP 500 error payload, which is neither a Positive nor a Negative match
outcome — in particular it is not `Negative(no_fingerprints_extracted)`. -/
theorem recognize_decode_error_c3_counterexample :
    detect_audio_match [] false [] = .error 500 "Failed to convert audio to WAV" ∧
    (detect_audio_match [] false []).isOutcome = false := by
  exact ⟨rfl, rfl⟩

/-- C3 (amended): once decoding succeeded the call always returns a
Positive or a Negative (an input from which no fingerprints could be
extracted yields `Negative(no_fingerprints_extracted)`), but a failed
decode yields an HTTP 500 error payload instead of a Negative. -/
theorem recognize_total_after_decode_c3 (db : List Fingerprint)
    (query : List (String × ℤ)) :
    (detect_audio_match db true query).isOutcome = true
    ∧ (query = [] → detect_audio_match db true query = .negative .noFingerprintsExtracted)
    ∧ detect_audio_match db false query = .error 500 "Failed to convert audio to WAV" := by
  refine ⟨?_, ?_, rfl⟩
  · unfold detect_audio_match
    rw [if_neg (by simp)]
    split
    · rfl
    split
    · rfl
    split
    · rfl
    split
    · rfl
    · rfl
  · intro hq
    subst hq
    rfl

/-- Witness for C3 (amended): the empty extraction result yields the
`no_fingerprints_extracted` Negative. -/
theorem recognize_total_after_decode_c3_witness :
    detect_audio_match [] true [] = .negative .noFingerprintsExtracted :=
  (recognize_total_after_decode_c3 [] []).2.1 rfl

/-! ## Claim C10: the winning vote count is bounded by the query size -/

theorem countP_le_one_of_nodup_map {α β : Type} [DecidableEq β] (f : α → β) (p : α → Bool)
    (l : List α) (hn : (l.map f).Nodup) (c : β) (hc : ∀ x, p x = true → f x = c) :
    l.countP p ≤ 1 := by
  induction l with
  | nil => simp
  | cons x xs ih =>
    rw [List.map_cons, List.nodup_cons] at hn
    by_cases hx : p x = true
    · rw [List.countP_cons_of_pos _ _ hx]
      have hz : xs.countP p = 0 := by
        rw [List.countP_eq_zero]
        intro y hy hpy
        exact hn.1 (by
          rw [hc x hx, ← hc y hpy]
          exact List.mem_map_of_mem f hy)
      omega
    · rw [List.countP_cons_of_neg _ _ hx]
      exact ih hn.2

theorem count_voteList_cons (k : ℕ × ℤ) (e : String × ℤ) (q : List (String × ℤ))
    (db2 : List Fingerprint) :
    ((db2.flatMap (fun fp => (((e :: q).filter (fun x => fp.hash == x.1)).map
        (fun x => (fp.song_id, fp.offset - x.2))))).count k)
    = db2.countP (fun fp => fp.hash == e.1 && decide ((fp.song_id, fp.offset - e.2) = k))
      + ((db2.flatMap (fun fp => ((q.filter (fun x => fp.hash == x.1)).map
          (fun x => (fp.song_id, fp.offset - x.2))))).count k) := by
  induction db2 with
  | nil => simp
  | cons fp db3 ih =>
    rw [List.flatMap_cons, List.flatMap_cons, List.count_append, List.count_append, ih,
      List.countP_cons]
    have hhead : ((((e :: q).filter (fun x => fp.hash == x.1)).map
        (fun x => (fp.song_id, fp.offset - x.2))).count k)
        = (if (fp.hash == e.1 && decide ((fp.song_id, fp.offset - e.2) = k)) = true
            then 1 else 0)
          + (((q.filter (fun x => fp.hash == x.1)).map
              (fun x => (fp.song_id, fp.offset - x.2))).count k) := by
      rw [List.filter_cons]
      by_cases hh : (fp.hash == e.1) = true
      · rw [if_pos hh, List.map_cons, List.count_cons]
        by_cases hv : (fp.song_id, fp.offset - e.2) = k
        · simp only [hh, hv, Bool.true_and, decide_eq_true_iff]
          simp [hv]
          omega
        · simp [hh, hv, Ne.symm hv]
      · rw [if_neg hh]
        simp [hh]
    rw [hhead]
    omega

theorem count_votes_le (query : List (String × ℤ)) :
    ∀ (db2 : List Fingerprint),
      (db2.map (fun fp => (fp.song_id, fp.offset, fp.hash))).Nodup →
      ∀ k : ℕ × ℤ,
        ((db2.flatMap (fun fp => ((query.filter (fun x => fp.hash == x.1)).map
          (fun x => (fp.song_id, fp.offset - x.2))))).count k) ≤ query.length := by
  induction query with
  | nil =>
    intro db2 _ k
    simp [List.count_eq_zero]
  | cons e q ih =>
    intro db2 hn k
    rw [count_voteList_cons]
    have h1 : db2.countP
        (fun fp => fp.hash == e.1 && decide ((fp.song_id, fp.offset - e.2) = k)) ≤ 1 := by
      refine countP_le_one_of_nodup_map _ _ db2 hn (k.1, k.2 + e.2, e.1) ?_
      intro x hx
      rw [Bool.and_eq_true, beq_iff_eq, decide_eq_true_iff] at hx
      obtain ⟨hh, hv⟩ := hx
      have h1 : x.song_id = k.1 := congrArg Prod.fst hv
      have h2 : x.offset - e.2 = k.2 := congrArg Prod.snd hv
      have h3 : x.offset = k.2 + e.2 := by omega
      rw [h1, h3, hh]
    have h2 := ih db2 hn k
    have h3 := Nat.add_le_add h1 h2
    rw [List.length_cons]
    omega

/-- C10: under the `unique_together (song, offset, hash)` constraint of the
fingerprint table, each query entry contributes at most one vote to any
fixed `(song_id, Δ)` key, so every vote count — in particular the winning
one — is at most the number of query fingerprints; the input confidence
therefore never exceeds 100 % and its divisor is positive. -/
theorem votes_bounded_c10 (db : List Fingerprint) (query : List (String × ℤ))
    (hnodup : (db.map (fun fp => (fp.song_id, fp.offset, fp.hash))).Nodup)
    (hq : query ≠ []) :
    (∀ k, votesFor db query k ≤ query.length)
    ∧ (∀ k, inputConfidence db query k ≤ 100)
    ∧ 0 < (queryHashes query).length := by
  have hsub : ((dbHits db query).map (fun fp => (fp.song_id, fp.offset, fp.hash))).Sublist
      (db.map (fun fp => (fp.song_id, fp.offset, fp.hash))) :=
    (List.filter_sublist db).map _
  have hn2 := hnodup.sublist hsub
  have hbound : ∀ k, votesFor db query k ≤ query.length := fun k =>
    count_votes_le query (dbHits db query) hn2 k
  have hlen : (queryHashes query).length = query.length := List.length_map query Prod.fst
  have hpos : 0 < (queryHashes query).length := by
    rw [hlen]
    exact List.length_pos.mpr hq
  refine ⟨hbound, fun k => ?_, hpos⟩
  unfold inputConfidence
  have hposq : (0 : ℚ) < ((queryHashes query).length : ℚ) := by exact_mod_cast hpos
  have hle : (votesFor db query k : ℚ) ≤ ((queryHashes query).length : ℚ) := by
    rw [hlen]
    exact_mod_cast hbound k
  have hdiv : (votesFor db query k : ℚ) / ((queryHashes query).length : ℚ) ≤ 1 :=
    (div_le_one hposq).mpr hle
  calc (votesFor db query k : ℚ) / ((queryHashes query).length : ℚ) * 100
      ≤ 1 * 100 := by
        exact mul_le_mul_of_nonneg_right hdiv (by norm_num)
    _ = 100 := one_mul 100

/-- Witness for C10 at a one-row index and one-entry query. -/
theorem votes_bounded_c10_witness :
    votesFor [⟨1, "a", 3⟩] [("a", 1)] ((1 : ℕ), (2 : ℤ)) ≤
      [(("a" : String), (1 : ℤ))].length :=
  (votes_bounded_c10 [⟨1, "a", 3⟩] [("a", 1)] (by decide) (by decide)).1 (1, 2)

/-! ## Claim C4: hash generation -/

theorem filterMap_range_getElem {α β : Type} (g : α → Option β) :
    ∀ (l : List α) (F : ℕ),
      (List.range F).filterMap (fun j => (l[j]?).bind g)
      = (l.take F).filterMap g := by
  intro l
  induction l with
  | nil =>
    intro F
    rw [List.take_nil, List.filterMap_nil, List.filterMap_eq_nil_iff]
    intro a _
    simp
  | cons x xs ih =>
    intro F
    cases F with
    | zero => rfl
    | succ F =>
      have hmap : (((List.range F).map Nat.succ).filterMap
            (fun j => ((x :: xs)[j]?).bind g))
          = ((List.range F).filterMap (fun j => (xs[j]?).bind g)) := by
        rw [List.filterMap_map]
        apply congrArg (fun f => List.filterMap f (List.range F))
        funext j
        simp [Function.comp, List.getElem?_cons_succ]
      rw [List.range_succ_eq_map, List.filterMap_cons, List.take_succ_cons,
        List.filterMap_cons, hmap, ih]
      simp only [List.getElem?_cons_zero, Option.some_bind]

theorem loopHashes_eq_spec (hexDigest : String → String) (F : ℕ) :
    ∀ peaks : List (ℕ × ℕ),
      ((List.range peaks.length).flatMap (fun i =>
        (List.range' 1 (F - 1)).filterMap (fun j =>
          match peaks[i]?, peaks[i + j]? with
          | some p1, some p2 =>
            if MIN_HASH_TIME_DELTA ≤ ((p2.2 : ℤ) - (p1.2 : ℤ)) ∧
                ((p2.2 : ℤ) - (p1.2 : ℤ)) ≤ MAX_HASH_TIME_DELTA then
              some (hashPair hexDigest p1.1 p2.1 ((p2.2 : ℤ) - (p1.2 : ℤ)), p1.2)
            else none
          | _, _ => none)))
      = specHashes hexDigest F peaks := by
  intro peaks
  induction peaks with
  | nil => rfl
  | cons p rest ih =>
    rw [List.length_cons, List.range_succ_eq_map, List.flatMap_cons, List.flatMap_map]
    rw [specHashes]
    apply congrArg₂ (· ++ ·)
    · -- the anchor term for index 0
      rw [List.range'_eq_map_range, List.filterMap_map]
      have hfun : ((fun j =>
            match (p :: rest)[0]?, (p :: rest)[0 + j]? with
            | some p1, some p2 =>
              if MIN_HASH_TIME_DELTA ≤ ((p2.2 : ℤ) - (p1.2 : ℤ)) ∧
                  ((p2.2 : ℤ) - (p1.2 : ℤ)) ≤ MAX_HASH_TIME_DELTA then
                some (hashPair hexDigest p1.1 p2.1 ((p2.2 : ℤ) - (p1.2 : ℤ)), p1.2)
              else none
            | _, _ => none) ∘ (1 + ·))
          = (fun j => (rest[j]?).bind (fun p2 =>
              if MIN_HASH_TIME_DELTA ≤ ((p2.2 : ℤ) - (p.2 : ℤ)) ∧
                  ((p2.2 : ℤ) - (p.2 : ℤ)) ≤ MAX_HASH_TIME_DELTA then
                some (hashPair hexDigest p.1 p2.1 ((p2.2 : ℤ) - (p.2 : ℤ)), p.2)
              else none)) := by
        funext j
        have h0 : 0 + (1 + j) = j + 1 := by omega
        simp only [Function.comp, h0, List.getElem?_cons_succ, List.getElem?_cons_zero]
        cases rest[j]? <;> rfl
      rw [hfun, filterMap_range_getElem]
      rfl
    · -- the remaining anchors
      have hfun : (fun i =>
            (List.range' 1 (F - 1)).filterMap (fun j =>
              match (p :: rest)[Nat.succ i]?, (p :: rest)[Nat.succ i + j]? with
              | some p1, some p2 =>
                if MIN_HASH_TIME_DELTA ≤ ((p2.2 : ℤ) - (p1.2 : ℤ)) ∧
                    ((p2.2 : ℤ) - (p1.2 : ℤ)) ≤ MAX_HASH_TIME_DELTA then
                  some (hashPair hexDigest p1.1 p2.1 ((p2.2 : ℤ) - (p1.2 : ℤ)), p1.2)
                else none
              | _, _ => none))
          = (fun i =>
            (List.range' 1 (F - 1)).filterMap (fun j =>
              match rest[i]?, rest[i + j]? with
              | some p1, some p2 =>
                if MIN_HASH_TIME_DELTA ≤ ((p2.2 : ℤ) - (p1.2 : ℤ)) ∧
                    ((p2.2 : ℤ) - (p1.2 : ℤ)) ≤ MAX_HASH_TIME_DELTA then
                  some (hashPair hexDigest p1.1 p2.1 ((p2.2 : ℤ) - (p1.2 : ℤ)), p1.2)
                else none
              | _, _ => none)) := by
        funext i
        apply congrArg (List.filterMap · (List.range' 1 (F - 1)))
        funext j
        have h1 : i + 1 + j = (i + j) + 1 := by omega
        simp only [Nat.succ_eq_add_one, h1, List.getElem?_cons_succ]
      rw [hfun, ih]

/-- C4: on a time-sorted peak list, `generate_hashes` with fan-out `F`,
`Δt` bounds `[MIN_HASH_TIME_DELTA, MAX_HASH_TIME_DELTA] = [0, 200]` and
truncation `FINGERPRINT_REDUCTION = 20` emits exactly the pairs
`(H(f1, f2, Δt), t1)` obtained by pairing each anchor peak at index `i`
with each of the next `F − 1` peaks at indices `i+1 .. i+F−1` whose time
delta lies within the bounds, where `H` is the hex digest of the canonical
string `"f1|f2|Δt"` truncated to its first 20 characters. -/
theorem generate_hashes_c4 (hexDigest : String → String) (F : ℕ)
    (peaks : List (ℕ × ℕ)) (hs : List.Sorted (fun a b : ℕ × ℕ => a.2 ≤ b.2) peaks) :
    generate_hashes hexDigest F peaks = specHashes hexDigest F peaks := by
  unfold generate_hashes
  simp only [PEAK_SORT]
  rw [if_pos trivial, hs.insertionSort_eq]
  exact loopHashes_eq_spec hexDigest F peaks

/-! ## Claim C5: lemmas about the peak picker -/

theorem reflectIdx_lt (m : ℕ) (hm : 0 < m) (i : ℤ) : reflectIdx m i < m := by
  unfold reflectIdx
  have h2m : (0 : ℤ) < 2 * (m : ℤ) := by positivity
  have hmod := Int.emod_nonneg i (ne_of_gt h2m)
  have hlt := Int.emod_lt_of_pos i h2m
  have hr : ((i % (2 * (m : ℤ))).toNat : ℤ) = i % (2 * (m : ℤ)) := Int.toNat_of_nonneg hmod
  by_cases h : (i % (2 * (m : ℤ))).toNat < m
  · simpa [h]
  · simp only [h, if_false]
    omega

theorem reflectIdx_of_inbounds (m : ℕ) (i : ℤ) (h1 : 0 ≤ i) (h2 : i < (m : ℤ)) :
    ((reflectIdx m i : ℕ) : ℤ) = i := by
  unfold reflectIdx
  have hmod : i % (2 * (m : ℤ)) = i := Int.emod_eq_of_lt h1 (by omega)
  simp only [hmod]
  have h3 : i.toNat < m := by omega
  simp only [h3, if_true]
  omega

/-- A `'reflect'`-mode neighbor index stays within `ρ` of the center. -/
theorem reflectIdx_dist (m rho : ℕ) (f : ℕ) (hf : f < m) (d : ℤ)
    (hd1 : -(rho : ℤ) ≤ d) (hd2 : d ≤ (rho : ℤ)) :
    -(rho : ℤ) ≤ ((reflectIdx m ((f : ℤ) + d) : ℕ) : ℤ) - (f : ℤ) ∧
      ((reflectIdx m ((f : ℤ) + d) : ℕ) : ℤ) - (f : ℤ) ≤ (rho : ℤ) := by
  have hm : 0 < m := by omega
  by_cases hsmall : m ≤ rho + 1
  · have hlt := reflectIdx_lt m hm ((f : ℤ) + d)
    omega
  · -- m > rho + 1, in particular rho < m: a single reflection suffices
    have hrm : (rho : ℤ) < (m : ℤ) := by
      have : rho < m := by omega
      exact_mod_cast this
    set i : ℤ := (f : ℤ) + d with hi
    unfold reflectIdx
    rcases lt_or_le i 0 with hneg | hpos
    · -- i ∈ [-rho, 0): i % 2m = i + 2m, reflected index is -i-1
      have hmod : i % (2 * (m : ℤ)) = i + 2 * (m : ℤ) := by
        rw [Int.emod_eq_add_self_emod]
        exact Int.emod_eq_of_lt (by omega) (by omega)
      rw [hmod]
      have hge : ¬ ((i + 2 * (m : ℤ)).toNat < m) := by omega
      simp only [hge, if_false]
      omega
    · rcases lt_or_le i (m : ℤ) with hmid | hhigh
      · have hmod : i % (2 * (m : ℤ)) = i := Int.emod_eq_of_lt hpos (by omega)
        rw [hmod]
        have hin : i.toNat < m := by omega
        simp only [hin, if_true]
        omega
      · -- i ∈ [m, m-1+rho]: reflected index is 2m-1-i
        have hmod : i % (2 * (m : ℤ)) = i := Int.emod_eq_of_lt hpos (by omega)
        rw [hmod]
        have hge : ¬ (i.toNat < m) := by omega
        simp only [hge, if_false]
        omega

/-- Membership in the footprint offset list. -/
theorem mem_neighborhoodOffsets (rho : ℕ) (d : ℤ) :
    d ∈ neighborhoodOffsets rho ↔ -(rho : ℤ) ≤ d ∧ d ≤ (rho : ℤ) := by
  simp only [neighborhoodOffsets, List.mem_map, List.mem_range]
  constructor
  · rintro ⟨k, hk, rfl⟩
    omega
  · intro hd
    exact ⟨(d + (rho : ℤ)).toNat, by omega, by omega⟩

theorem localMaxAt_iff (S : ℕ → ℕ → ℚ) (m n rho f t : ℕ) :
    localMaxAt S m n rho f t = true ↔
      ∀ df dg : ℤ, -(rho : ℤ) ≤ df → df ≤ (rho : ℤ) → -(rho : ℤ) ≤ dg → dg ≤ (rho : ℤ) →
        S (reflectIdx m ((f : ℤ) + df)) (reflectIdx n ((t : ℤ) + dg)) ≤ S f t := by
  unfold localMaxAt
  rw [List.all_eq_true]
  constructor
  · intro h df dg h1 h2 h3 h4
    have hdf := h df ((mem_neighborhoodOffsets rho df).mpr ⟨h1, h2⟩)
    rw [List.all_eq_true] at hdf
    have := hdf dg ((mem_neighborhoodOffsets rho dg).mpr ⟨h3, h4⟩)
    exact decide_eq_true_iff.mp this
  · intro h df hdf
    rw [List.all_eq_true]
    intro dg hdg
    rw [mem_neighborhoodOffsets] at hdf hdg
    exact decide_eq_true_eq.mpr (h df dg hdf.1 hdf.2 hdg.1 hdg.2)

theorem erodedBackgroundAt_iff (S : ℕ → ℕ → ℚ) (m n rho f t : ℕ) :
    erodedBackgroundAt S m n rho f t = true ↔
      ∀ df dg : ℤ, -(rho : ℤ) ≤ df → df ≤ (rho : ℤ) → -(rho : ℤ) ≤ dg → dg ≤ (rho : ℤ) →
        0 ≤ (f : ℤ) + df → (f : ℤ) + df < (m : ℤ) → 0 ≤ (t : ℤ) + dg → (t : ℤ) + dg < (n : ℤ) →
        S ((f : ℤ) + df).toNat ((t : ℤ) + dg).toNat = 0 := by
  unfold erodedBackgroundAt
  rw [List.all_eq_true]
  constructor
  · intro h df dg h1 h2 h3 h4 hb1 hb2 hb3 hb4
    have hdf := h df ((mem_neighborhoodOffsets rho df).mpr ⟨h1, h2⟩)
    rw [List.all_eq_true] at hdf
    have h5 := hdf dg ((mem_neighborhoodOffsets rho dg).mpr ⟨h3, h4⟩)
    rw [if_pos ⟨hb1, hb2, hb3, hb4⟩] at h5
    exact decide_eq_true_iff.mp h5
  · intro h df hdf
    rw [List.all_eq_true]
    intro dg hdg
    rw [mem_neighborhoodOffsets] at hdf hdg
    by_cases hb : 0 ≤ (f : ℤ) + df ∧ (f : ℤ) + df < (m : ℤ) ∧
        0 ≤ (t : ℤ) + dg ∧ (t : ℤ) + dg < (n : ℤ)
    · rw [if_pos hb]
      exact decide_eq_true_eq.mpr
        (h df dg hdf.1 hdf.2 hdg.1 hdg.2 hb.1 hb.2.1 hb.2.2.1 hb.2.2.2)
    · rw [if_neg hb]

theorem mem_allCells (m n : ℕ) (f t : ℕ) : (f, t) ∈ allCells m n ↔ f < m ∧ t < n := by
  unfold allCells
  rw [List.mem_flatMap]
  constructor
  · rintro ⟨a, ha, hmem⟩
    rw [List.mem_range] at ha
    rw [List.mem_map] at hmem
    obtain ⟨b, hb, heq⟩ := hmem
    rw [List.mem_range] at hb
    cases heq
    exact ⟨ha, hb⟩
  · rintro ⟨hf, ht⟩
    exact ⟨f, List.mem_range.mpr hf, List.mem_map.mpr ⟨t, List.mem_range.mpr ht, rfl⟩⟩

theorem nodup_allCells (m n : ℕ) : (allCells m n).Nodup := by
  unfold allCells
  rw [List.nodup_flatMap]
  refine ⟨fun a _ => ?_, ?_⟩
  · exact (List.nodup_range n).map (fun x y hxy => congrArg Prod.snd hxy)
  · have hdisj : ∀ a b : ℕ, a ≠ b →
        ((List.range n).map (fun x => (a, x))).Disjoint ((List.range n).map (fun x => (b, x))) := by
      intro a b hab y hy1 hy2
      rw [List.mem_map] at hy1 hy2
      obtain ⟨x1, _, h1⟩ := hy1
      obtain ⟨x2, _, h2⟩ := hy2
      apply hab
      have h3 := h1.trans h2.symm
      exact congrArg Prod.fst h3
    exact (List.nodup_range m).imp (fun hab => hdisj _ _ hab)

theorem count_eq_one_of_mem_beq {α : Type} [BEq α] [LawfulBEq α] (l : List α) (a : α)
    (h : l.Nodup) (ha : a ∈ l) : l.count a = 1 := by
  induction l with
  | nil => cases ha
  | cons x xs ih =>
    rw [List.nodup_cons] at h
    rcases List.mem_cons.mp ha with rfl | hmem
    · rw [List.count_cons_self, List.count_eq_zero_of_not_mem h.1]
    · have hax : a ≠ x := by
        intro hax
        subst hax
        exact h.1 hmem
      rw [List.count_cons_of_ne hax xs]
      exact ih h.2 hmem

theorem detectedPeakAt_iff (S : ℕ → ℕ → ℚ) (m n rho f t : ℕ) :
    detectedPeakAt S m n rho f t = true ↔
      (localMaxAt S m n rho f t = true ↔ ¬(erodedBackgroundAt S m n rho f t = true)) := by
  rw [detectedPeakAt, bne_iff_ne]
  cases localMaxAt S m n rho f t <;> cases erodedBackgroundAt S m n rho f t <;> simp

/-- In an otherwise-zero spectrogram, the single positive spike is detected. -/
theorem spike_detected (S : ℕ → ℕ → ℚ) (m n rho : ℕ) (f0 t0 : ℕ) (A : ℚ)
    (hf0 : f0 < m) (ht0 : t0 < n) (hA : 0 < A) (hS : S f0 t0 = A)
    (hzero : ∀ f t : ℕ, f < m → t < n → (f, t) ≠ (f0, t0) → S f t = 0) :
    detectedPeakAt S m n rho f0 t0 = true := by
  have hm : 0 < m := by omega
  have hn : 0 < n := by omega
  have hval : ∀ a b : ℕ, a < m → b < n → S a b = A ∨ S a b = 0 := by
    intro a b ha hb
    by_cases hab : (a, b) = (f0, t0)
    · left
      have h1 : a = f0 := congrArg Prod.fst hab
      have h2 : b = t0 := congrArg Prod.snd hab
      rw [h1, h2, hS]
    · right
      exact hzero a b ha hb hab
  have hlocal : localMaxAt S m n rho f0 t0 = true := by
    rw [localMaxAt_iff]
    intro df dg h1 h2 h3 h4
    rw [hS]
    rcases hval _ _ (reflectIdx_lt m hm ((f0 : ℤ) + df)) (reflectIdx_lt n hn ((t0 : ℤ) + dg))
      with hv | hv
    · rw [hv]
    · rw [hv]
      exact hA.le
  have heroded : erodedBackgroundAt S m n rho f0 t0 = false := by
    rw [Bool.eq_false_iff]
    intro hcon
    rw [erodedBackgroundAt_iff] at hcon
    have h0 := hcon 0 0 (by omega) (by omega) (by omega) (by omega) (by omega) (by omega)
      (by omega) (by omega)
    have he1 : ((f0 : ℤ) + 0).toNat = f0 := by omega
    have he2 : ((t0 : ℤ) + 0).toNat = t0 := by omega
    rw [he1, he2, hS] at h0
    exact absurd h0 (ne_of_gt hA)
  rw [detectedPeakAt, hlocal, heroded]
  rfl

/-- In an otherwise-zero spectrogram with one positive spike, no other cell
is detected: near the spike neither filter fires, far from it the
local-maximum mask and the eroded background cancel in the XOR. -/
theorem nonspike_not_detected (S : ℕ → ℕ → ℚ) (m n rho : ℕ) (f0 t0 : ℕ) (A : ℚ)
    (f t : ℕ)
    (hf0 : f0 < m) (ht0 : t0 < n) (hA : 0 < A) (hS : S f0 t0 = A)
    (hzero : ∀ f t : ℕ, f < m → t < n → (f, t) ≠ (f0, t0) → S f t = 0)
    (hf : f < m) (ht : t < n) (hne : (f, t) ≠ (f0, t0)) :
    detectedPeakAt S m n rho f t = false := by
  have hm : 0 < m := by omega
  have hn : 0 < n := by omega
  have hSft : S f t = 0 := hzero f t hf ht hne
  by_cases hR : (-(rho : ℤ) ≤ (f0 : ℤ) - (f : ℤ) ∧ (f0 : ℤ) - (f : ℤ) ≤ (rho : ℤ)) ∧
      (-(rho : ℤ) ≤ (t0 : ℤ) - (t : ℤ) ∧ (t0 : ℤ) - (t : ℤ) ≤ (rho : ℤ))
  · have hlocal : localMaxAt S m n rho f t = false := by
      rw [Bool.eq_false_iff]
      intro hcon
      rw [localMaxAt_iff] at hcon
      have hx := hcon ((f0 : ℤ) - (f : ℤ)) ((t0 : ℤ) - (t : ℤ)) hR.1.1 hR.1.2 hR.2.1 hR.2.2
      have e1 : ((f : ℤ) + ((f0 : ℤ) - (f : ℤ))) = (f0 : ℤ) := by ring
      have e2 : ((t : ℤ) + ((t0 : ℤ) - (t : ℤ))) = (t0 : ℤ) := by ring
      rw [e1, e2] at hx
      have r1 : reflectIdx m (f0 : ℤ) = f0 := by
        have h5 := reflectIdx_of_inbounds m (f0 : ℤ) (by omega) (by exact_mod_cast hf0)
        omega
      have r2 : reflectIdx n (t0 : ℤ) = t0 := by
        have h5 := reflectIdx_of_inbounds n (t0 : ℤ) (by omega) (by exact_mod_cast ht0)
        omega
      rw [r1, r2, hS, hSft] at hx
      exact absurd hx (not_le.mpr hA)
    have heroded : erodedBackgroundAt S m n rho f t = false := by
      rw [Bool.eq_false_iff]
      intro hcon
      rw [erodedBackgroundAt_iff] at hcon
      have hx := hcon ((f0 : ℤ) - (f : ℤ)) ((t0 : ℤ) - (t : ℤ)) hR.1.1 hR.1.2 hR.2.1 hR.2.2
        (by omega) (by omega) (by omega) (by omega)
      have e1 : ((f : ℤ) + ((f0 : ℤ) - (f : ℤ))).toNat = f0 := by omega
      have e2 : ((t : ℤ) + ((t0 : ℤ) - (t : ℤ))).toNat = t0 := by omega
      rw [e1, e2, hS] at hx
      exact absurd hx (ne_of_gt hA)
    rw [detectedPeakAt, hlocal, heroded]
    rfl
  · have hlocal : localMaxAt S m n rho f t = true := by
      rw [localMaxAt_iff]
      intro df dg h1 h2 h3 h4
      have ha : reflectIdx m ((f : ℤ) + df) < m := reflectIdx_lt m hm _
      have hb : reflectIdx n ((t : ℤ) + dg) < n := reflectIdx_lt n hn _
      have hne2 : (reflectIdx m ((f : ℤ) + df), reflectIdx n ((t : ℤ) + dg)) ≠ (f0, t0) := by
        intro hcon2
        have ha0 : reflectIdx m ((f : ℤ) + df) = f0 := congrArg Prod.fst hcon2
        have hb0 : reflectIdx n ((t : ℤ) + dg) = t0 := congrArg Prod.snd hcon2
        have d1 := reflectIdx_dist m rho f hf df h1 h2
        have d2 := reflectIdx_dist n rho t ht dg h3 h4
        exact hR ⟨⟨by omega, by omega⟩, ⟨by omega, by omega⟩⟩
      rw [hzero _ _ ha hb hne2, hSft]
    have heroded : erodedBackgroundAt S m n rho f t = true := by
      rw [erodedBackgroundAt_iff]
      intro df dg h1 h2 h3 h4 hb1 hb2 hb3 hb4
      have hne2 : (((f : ℤ) + df).toNat, ((t : ℤ) + dg).toNat) ≠ (f0, t0) := by
        intro hcon2
        have ha0 := congrArg Prod.fst hcon2
        have hb0 := congrArg Prod.snd hcon2
        simp only at ha0 hb0
        exact hR ⟨⟨by omega, by omega⟩, ⟨by omega, by omega⟩⟩
      exact hzero _ _ (by omega) (by omega) hne2
    rw [detectedPeakAt, hlocal, heroded]
    rfl

/-- C5 counterexample: for a 1×1 spectrogram holding a single spike of
value 30 above `amp_min = 10`, the code returns the cell `(0, 0)` even
though it lies within `ρ = 10` of every edge, while the claim's
characterization (boundary cells excluded) classifies it as not a peak. -/
theorem peak_picker_c5_counterexample :
    get_2D_peaks (fun _ _ => (30 : ℚ)) 1 1 10 = [(0, 0)] ∧
    specIsPeak (fun _ _ => (30 : ℚ)) 1 1 PEAK_NEIGHBORHOOD_SIZE 10 0 0 = false := by
  constructor
  · decide
  · decide

/-- C5 (amended): a cell is returned by `get_2D_peaks` iff it is in bounds,
exceeds `amp_min`, and exactly one of the following holds: (i) its value is
a non-strict maximum of its `(2ρ+1)×(2ρ+1)` neighborhood sampled with
reflected boundary indexing, (ii) every in-bounds cell of that neighborhood
is zero.  Boundary cells are not excluded and equal-valued plateau cells are
included.  Consequently, for a spectrogram that is zero everywhere except a
single positive spike above `amp_min` at `(f0, t0)`, the picker returns
exactly `[(f0, t0)]`. -/
theorem peak_picker_c5_amended (S : ℕ → ℕ → ℚ) (m n : ℕ) (amp_min : ℚ) :
    (∀ f t : ℕ, (f, t) ∈ get_2D_peaks S m n amp_min ↔
      (f < m ∧ t < n ∧ amp_min < S f t ∧
        ((∀ df dg : ℤ, -(PEAK_NEIGHBORHOOD_SIZE : ℤ) ≤ df → df ≤ (PEAK_NEIGHBORHOOD_SIZE : ℤ) →
            -(PEAK_NEIGHBORHOOD_SIZE : ℤ) ≤ dg → dg ≤ (PEAK_NEIGHBORHOOD_SIZE : ℤ) →
            S (reflectIdx m ((f : ℤ) + df)) (reflectIdx n ((t : ℤ) + dg)) ≤ S f t)
          ↔ ¬(∀ df dg : ℤ, -(PEAK_NEIGHBORHOOD_SIZE : ℤ) ≤ df →
            df ≤ (PEAK_NEIGHBORHOOD_SIZE : ℤ) → -(PEAK_NEIGHBORHOOD_SIZE : ℤ) ≤ dg →
            dg ≤ (PEAK_NEIGHBORHOOD_SIZE : ℤ) →
            0 ≤ (f : ℤ) + df → (f : ℤ) + df < (m : ℤ) → 0 ≤ (t : ℤ) + dg → (t : ℤ) + dg < (n : ℤ) →
            S ((f : ℤ) + df).toNat ((t : ℤ) + dg).toNat = 0))))
    ∧ (∀ f0 t0 : ℕ, ∀ A : ℚ, f0 < m → t0 < n → 0 < A → amp_min < A → S f0 t0 = A →
        (∀ f t : ℕ, f < m → t < n → (f, t) ≠ (f0, t0) → S f t = 0) →
        get_2D_peaks S m n amp_min = [(f0, t0)]) := by
  constructor
  · intro f t
    have hxor := detectedPeakAt_iff S m n PEAK_NEIGHBORHOOD_SIZE f t
    have hl := localMaxAt_iff S m n PEAK_NEIGHBORHOOD_SIZE f t
    have he := erodedBackgroundAt_iff S m n PEAK_NEIGHBORHOOD_SIZE f t
    unfold get_2D_peaks
    rw [List.mem_filter, List.mem_filter]
    constructor
    · rintro ⟨⟨hcell, hdet⟩, hamp⟩
      rw [mem_allCells] at hcell
      refine ⟨hcell.1, hcell.2, decide_eq_true_iff.mp hamp, ?_⟩
      rw [← hl, ← he]
      exact hxor.mp hdet
    · rintro ⟨hf, ht, hamp, hiff⟩
      refine ⟨⟨(mem_allCells m n f t).mpr ⟨hf, ht⟩, ?_⟩, decide_eq_true_iff.mpr hamp⟩
      rw [hxor, hl, he]
      exact hiff
  · intro f0 t0 A hf0 ht0 hA hamp hS hzero
    unfold get_2D_peaks
    rw [List.filter_filter]
    have hcong : ∀ p ∈ allCells m n,
        (decide (amp_min < S p.1 p.2) &&
          detectedPeakAt S m n PEAK_NEIGHBORHOOD_SIZE p.1 p.2)
        = (p == (f0, t0)) := by
      intro p hp
      obtain ⟨f, t⟩ := p
      rw [mem_allCells] at hp
      by_cases hpe : (f, t) = (f0, t0)
      · have hfe : f = f0 := congrArg Prod.fst hpe
        have hte : t = t0 := congrArg Prod.snd hpe
        subst hfe
        subst hte
        rw [spike_detected S m n PEAK_NEIGHBORHOOD_SIZE f t A hp.1 hp.2 hA hS hzero]
        simp [hS, hamp]
      · rw [nonspike_not_detected S m n PEAK_NEIGHBORHOOD_SIZE f0 t0 A f t hf0 ht0 hA hS
          hzero hp.1 hp.2 hpe]
        rw [Bool.and_false]
        symm
        rw [beq_eq_false_iff_ne]
        exact hpe
    rw [List.filter_congr hcong, List.filter_beq,
      count_eq_one_of_mem_beq (allCells m n) (f0, t0) (nodup_allCells m n)
        ((mem_allCells m n f0 t0).mpr ⟨hf0, ht0⟩),
      List.replicate_one]

/-- Witness for C5 (amended) at the concrete 1×1 single-spike spectrogram. -/
theorem peak_picker_c5_amended_witness :
    get_2D_peaks (fun _ _ => (30 : ℚ)) 1 1 10 = [(0, 0)] :=
  (peak_picker_c5_amended (fun _ _ => (30 : ℚ)) 1 1 10).2 0 0 30 (by decide) (by decide)
    (by norm_num) (by norm_num) rfl
    (fun f t hf ht hne => by
      have hfz : f = 0 := by omega
      have htz : t = 0 := by omega
      subst hfz
      subst htz
      exact absurd rfl hne)

/-- Witness for C4 on a concrete sorted peak list: the pair at `Δt = 3` is
emitted, the pair at `Δt = 300 > 200` is dropped. -/
theorem generate_hashes_c4_witness :
    generate_hashes (fun s => s) 3 [(5, 0), (7, 3), (9, 300)] =
      specHashes (fun s => s) 3 [(5, 0), (7, 3), (9, 300)] ∧
    generate_hashes (fun s => s) 3 [(5, 0), (7, 3), (9, 300)] = [("5|7|3", 0)] :=
  ⟨generate_hashes_c4 (fun s => s) 3 [(5, 0), (7, 3), (9, 300)] (by decide), by decide⟩

/-! ## Aggregator lemmas (claims C6, C7, C8) -/

/-- Unfolded form of `processGroup` (pure zeta-reduction of its `let`s). -/
theorem processGroup_eq (w : ℚ) (k : ℕ × ℕ) (st : AggState) :
    processGroup w k st =
      if 3 ≤ (groupMatches w k st.cache).length then
        { cache := st.cache.filter
            (fun r => !decide (r.track = k.1 ∧ r.station = k.2 ∧ w ≤ r.matched_at)),
          playlog :=
            if 30 ≤ maxMatched (groupMatches w k st.cache) - minMatched (groupMatches w k st.cache) then
              if st.playlog.any (fun p => decide (p.track = k.1 ∧ p.station = k.2 ∧
                  minMatched (groupMatches w k st.cache) - 60 ≤ p.start_time ∧
                  p.start_time ≤ maxMatched (groupMatches w k st.cache) + 60)) then
                st.playlog
              else
                st.playlog ++ [{ track := k.1, station := k.2,
                                 start_time := minMatched (groupMatches w k st.cache),
                                 stop_time := maxMatched (groupMatches w k st.cache),
                                 duration := maxMatched (groupMatches w k st.cache) -
                                   minMatched (groupMatches w k st.cache),
                                 royalty_amount := calculate_royalty
                                   (maxMatched (groupMatches w k st.cache) -
                                     minMatched (groupMatches w k st.cache)) }]
            else st.playlog }
      else st := rfl

/-- Unfolded form of `handle`. -/
theorem handle_eq (now : ℚ) (st : AggState) :
    handle now st =
      (keysInOrder ((st.cache.filter (fun r => decide (now - 180 ≤ r.matched_at))).map
          (fun r => (r.track, r.station)))).foldl
        (fun s k => processGroup (now - 180) k s) st := rfl

theorem processGroup_cache (w : ℚ) (k : ℕ × ℕ) (st : AggState) :
    (processGroup w k st).cache =
      if 3 ≤ (groupMatches w k st.cache).length then
        st.cache.filter (fun r => !decide (r.track = k.1 ∧ r.station = k.2 ∧ w ≤ r.matched_at))
      else st.cache := by
  rw [processGroup_eq]
  by_cases h3 : 3 ≤ (groupMatches w k st.cache).length
  · rw [if_pos h3, if_pos h3]
  · rw [if_neg h3, if_neg h3]

/-- Deleting the rows of group `k` does not change another group's rows. -/
theorem groupMatches_filter_other (w : ℚ) (key k : ℕ × ℕ) (hne : key ≠ k)
    (cache : List MatchRow) :
    groupMatches w key (cache.filter
        (fun r => !decide (r.track = k.1 ∧ r.station = k.2 ∧ w ≤ r.matched_at)))
      = groupMatches w key cache := by
  unfold groupMatches
  rw [List.filter_filter]
  apply List.filter_congr
  intro r _
  by_cases hq : r.track = key.1 ∧ r.station = key.2 ∧ w ≤ r.matched_at
  · have hk : ¬(r.track = k.1 ∧ r.station = k.2 ∧ w ≤ r.matched_at) := by
      intro hkk
      apply hne
      have e1 : key.1 = k.1 := by rw [← hq.1, hkk.1]
      have e2 : key.2 = k.2 := by rw [← hq.2.1, hkk.2.1]
      exact Prod.ext_iff.mpr ⟨e1, e2⟩
    rw [decide_eq_true hq, decide_eq_false hk, Bool.not_false, Bool.true_and]
  · rw [decide_eq_false hq, Bool.false_and]

/-- Cache contents after folding `processGroup` over a duplicate-free list
of group keys: a row is removed iff its key is among the processed keys, it
lies within the window, and its group (measured on the starting cache) has
at least three rows in the window. -/
theorem foldl_processGroup_cache (w : ℚ) :
    ∀ (ks : List (ℕ × ℕ)) (s : AggState), ks.Nodup →
      (ks.foldl (fun s2 k => processGroup w k s2) s).cache
        = s.cache.filter (fun r => !decide ((r.track, r.station) ∈ ks ∧ w ≤ r.matched_at ∧
            3 ≤ (groupMatches w (r.track, r.station) s.cache).length)) := by
  intro ks
  induction ks with
  | nil =>
    intro s _
    rw [List.foldl_nil]
    symm
    rw [List.filter_eq_self]
    intro r _
    simp
  | cons k ks ih =>
    intro s hnd
    rw [List.nodup_cons] at hnd
    rw [List.foldl_cons, ih (processGroup w k s) hnd.2, processGroup_cache]
    by_cases h3 : 3 ≤ (groupMatches w k s.cache).length
    · rw [if_pos h3, List.filter_filter]
      apply List.filter_congr
      intro r hr
      by_cases hkey : (r.track, r.station) = k
      · have hk1 : r.track = k.1 := congrArg Prod.fst hkey
        have hk2 : r.station = k.2 := congrArg Prod.snd hkey
        have hnotin : (r.track, r.station) ∉ ks := by
          rw [hkey]
          exact hnd.1
        have hA : decide ((r.track, r.station) ∈ ks ∧ w ≤ r.matched_at ∧
            3 ≤ (groupMatches w (r.track, r.station)
              (s.cache.filter (fun r2 => !decide (r2.track = k.1 ∧ r2.station = k.2 ∧
                w ≤ r2.matched_at)))).length) = false :=
          decide_eq_false (fun hcon => hnotin hcon.1)
        rw [hA, Bool.not_false, Bool.true_and]
        apply congrArg
        rw [decide_eq_decide]
        constructor
        · rintro ⟨_, _, hw⟩
          refine ⟨by rw [hkey]; exact List.mem_cons_self k ks, hw, ?_⟩
          rw [hkey]
          exact h3
        · rintro ⟨_, hw, _⟩
          exact ⟨hk1, hk2, hw⟩
      · have hother := groupMatches_filter_other w (r.track, r.station) k hkey s.cache
        have hnk : ¬(r.track = k.1 ∧ r.station = k.2 ∧ w ≤ r.matched_at) := by
          intro hkk
          exact hkey (Prod.ext_iff.mpr ⟨hkk.1, hkk.2.1⟩)
        have hmem : (r.track, r.station) ∈ k :: ks ↔ (r.track, r.station) ∈ ks := by
          rw [List.mem_cons]
          exact ⟨fun h => h.resolve_left hkey, Or.inr⟩
        rw [hother, decide_eq_false hnk, Bool.not_false, Bool.and_true]
        apply congrArg
        rw [decide_eq_decide, hmem]
    · rw [if_neg h3]
      apply List.filter_congr
      intro r hr
      by_cases hkey : (r.track, r.station) = k
      · have hnotin : (r.track, r.station) ∉ ks := by
          rw [hkey]
          exact hnd.1
        have hcnt : ¬(3 ≤ (groupMatches w (r.track, r.station) s.cache).length) := by
          rw [hkey]
          exact h3
        apply congrArg
        rw [decide_eq_decide]
        constructor
        · rintro ⟨h1, _, _⟩
          exact absurd h1 hnotin
        · rintro ⟨_, _, h5⟩
          exact absurd h5 hcnt
      · have hmem : (r.track, r.station) ∈ k :: ks ↔ (r.track, r.station) ∈ ks := by
          rw [List.mem_cons]
          exact ⟨fun h => h.resolve_left hkey, Or.inr⟩
        apply congrArg
        rw [decide_eq_decide, hmem]

/-! ## Claim C6: the overlap veto -/

unseal Rat.add Rat.sub Rat.mul Rat.inv

/-- C6 counterexample: an existing PlaySession `[0, 200]` for `(1, 1)`
overlaps the new span `[110, 150]` — its ±60 s extension certainly
intersects it — yet the aggregator emits a second session, because its
duplicate check only asks whether an existing `start_time` lies within
`[span_start − 60, span_stop + 60] = [50, 210]`, and `0` does not. -/
theorem overlap_veto_c6_counterexample :
    ((0 : ℚ) - 60 ≤ 150 ∧ (110 : ℚ) ≤ 200 + 60) ∧
    (handle 180 ⟨[⟨1, 1, 110⟩, ⟨1, 1, 120⟩, ⟨1, 1, 150⟩],
        [⟨1, 1, 0, 200, 200, 2⟩]⟩).playlog =
      [⟨1, 1, 0, 200, 200, 2⟩, ⟨1, 1, 110, 150, 40, 2 / 5⟩] := by
  constructor
  · constructor <;> norm_num
  · decide

/-- C6 (amended): a group emits a new PlaySession iff it has at least three
rows in the window, spans at least 30 s, and no already-logged PlaySession
for the same `(track, station)` has its `start_time` inside
`[span_start − 60 s, span_stop + 60 s]`.  The veto tests only the existing
row's `start_time`, not intersection of the extended interval, so sessions
overlapping an old session that started more than 60 s before the new span
are still emitted. -/
theorem overlap_veto_c6_amended (w : ℚ) (k : ℕ × ℕ) (st : AggState) :
    ((processGroup w k st).playlog ≠ st.playlog ↔
      (3 ≤ (groupMatches w k st.cache).length ∧
        30 ≤ maxMatched (groupMatches w k st.cache) - minMatched (groupMatches w k st.cache) ∧
        ¬ ∃ p ∈ st.playlog, p.track = k.1 ∧ p.station = k.2 ∧
          minMatched (groupMatches w k st.cache) - 60 ≤ p.start_time ∧
          p.start_time ≤ maxMatched (groupMatches w k st.cache) + 60))
    ∧ ((∃ p ∈ st.playlog, p.track = k.1 ∧ p.station = k.2 ∧
          minMatched (groupMatches w k st.cache) - 60 ≤ p.start_time ∧
          p.start_time ≤ maxMatched (groupMatches w k st.cache) + 60) →
        (processGroup w k st).playlog = st.playlog) := by
  have hany : (st.playlog.any (fun p => decide (p.track = k.1 ∧ p.station = k.2 ∧
      minMatched (groupMatches w k st.cache) - 60 ≤ p.start_time ∧
      p.start_time ≤ maxMatched (groupMatches w k st.cache) + 60)) = true) ↔
      (∃ p ∈ st.playlog, p.track = k.1 ∧ p.station = k.2 ∧
        minMatched (groupMatches w k st.cache) - 60 ≤ p.start_time ∧
        p.start_time ≤ maxMatched (groupMatches w k st.cache) + 60) := by
    simp only [List.any_eq_true, decide_eq_true_iff]
  rw [processGroup_eq]
  by_cases h3 : 3 ≤ (groupMatches w k st.cache).length
  · rw [if_pos h3]
    by_cases h30 : 30 ≤ maxMatched (groupMatches w k st.cache) -
        minMatched (groupMatches w k st.cache)
    · rw [if_pos h30]
      by_cases hveto : st.playlog.any (fun p => decide (p.track = k.1 ∧ p.station = k.2 ∧
          minMatched (groupMatches w k st.cache) - 60 ≤ p.start_time ∧
          p.start_time ≤ maxMatched (groupMatches w k st.cache) + 60)) = true
      · rw [if_pos hveto]
        constructor
        · constructor
          · intro hne
            exact absurd rfl hne
          · rintro ⟨_, _, hno⟩
            exact absurd (hany.mp hveto) hno
        · intro _
          rfl
      · rw [if_neg hveto]
        constructor
        · constructor
          · intro _
            refine ⟨h3, h30, fun hex => hveto (hany.mpr hex)⟩
          · intro _ hcon
            have hlen := congrArg List.length hcon
            rw [List.length_append, List.length_singleton] at hlen
            omega
        · intro hex
          exact absurd (hany.mpr hex) hveto
    · rw [if_neg h30]
      constructor
      · constructor
        · intro hne
          exact absurd rfl hne
        · rintro ⟨_, h30x, _⟩
          exact absurd h30x h30
      · intro _
        rfl
  · rw [if_neg h3]
    constructor
    · constructor
      · intro hne
        exact absurd rfl hne
      · rintro ⟨h3x, _, _⟩
        exact absurd h3x h3
    · intro _
      rfl

/-- Witness for C6 (amended): a veto situation — an existing session for
the same pair starting inside the ±60 s window — leaves the play log
unchanged. -/
theorem overlap_veto_c6_amended_witness :
    (processGroup 0 (1, 1) ⟨[⟨1, 1, 100⟩, ⟨1, 1, 110⟩, ⟨1, 1, 140⟩],
        [⟨1, 1, 100, 120, 20, 0⟩]⟩).playlog =
      ([⟨1, 1, 100, 120, 20, 0⟩] : List PlayRow) :=
  (overlap_veto_c6_amended 0 (1, 1) ⟨[⟨1, 1, 100⟩, ⟨1, 1, 110⟩, ⟨1, 1, 140⟩],
      [⟨1, 1, 100, 120, 20, 0⟩]⟩).2
    ⟨⟨1, 1, 100, 120, 20, 0⟩, by decide, rfl, rfl, by decide, by decide⟩

/-! ## Claim C7: duration and royalty of an emitted session -/

/-- C7 counterexample: the scenario of the claim — four cache rows for
`(1, 1)` at 0 s, 10 s, 25 s, 35 s, aggregated at 40 s — emits one session
of 35 s whose royalty is `round(35 · 0.01, 2) = 0.35` (the per-second rate
of `Track.calculate_royalty`), not the claimed
`round(35/60 · 0.10, 2) = 0.06`. -/
theorem royalty_rate_c7_counterexample :
    (handle 40 ⟨[⟨1, 1, 0⟩, ⟨1, 1, 10⟩, ⟨1, 1, 25⟩, ⟨1, 1, 35⟩], []⟩).playlog =
      [⟨1, 1, 0, 35, 35, 7 / 20⟩] ∧
    round2 (35 / 60 * (1 / 10)) = 6 / 100 ∧
    (7 / 20 : ℚ) ≠ 6 / 100 := by
  refine ⟨by decide, by decide, by norm_num⟩

/-- C7 (amended): every PlaySession the aggregator emits has
`duration = stop_time − start_time` and
`royalty_amount = round(duration_seconds · 0.01, 2)` — the per-second rate
`0.01` of `Track.calculate_royalty` — so a 35-second session yields
`0.35`. -/
theorem royalty_c7_amended (now : ℚ) (st : AggState) :
    (∀ p : PlayRow, p ∈ (handle now st).playlog → p ∈ st.playlog ∨
      (p.duration = p.stop_time - p.start_time ∧
        p.royalty_amount = round2 (p.duration * (1 / 100))))
    ∧ calculate_royalty 35 = 35 / 100 := by
  constructor
  · have hstep : ∀ (w : ℚ) (k : ℕ × ℕ) (s : AggState) (p : PlayRow),
        p ∈ (processGroup w k s).playlog → p ∈ s.playlog ∨
          (p.duration = p.stop_time - p.start_time ∧
            p.royalty_amount = round2 (p.duration * (1 / 100))) := by
      intro w k s p hp
      rw [processGroup_eq] at hp
      by_cases h3 : 3 ≤ (groupMatches w k s.cache).length
      · rw [if_pos h3] at hp
        by_cases h30 : 30 ≤ maxMatched (groupMatches w k s.cache) -
            minMatched (groupMatches w k s.cache)
        · have hp2 := hp
          rw [show (({ cache := _, playlog := _ } : AggState)).playlog = _ from rfl] at hp2
          rw [if_pos h30] at hp2
          by_cases hveto : s.playlog.any (fun p2 => decide (p2.track = k.1 ∧ p2.station = k.2 ∧
              minMatched (groupMatches w k s.cache) - 60 ≤ p2.start_time ∧
              p2.start_time ≤ maxMatched (groupMatches w k s.cache) + 60)) = true
          · rw [if_pos hveto] at hp2
            exact Or.inl hp2
          · rw [if_neg hveto, List.mem_append] at hp2
            rcases hp2 with hp2 | hp2
            · exact Or.inl hp2
            · right
              rw [List.mem_singleton] at hp2
              subst hp2
              exact ⟨rfl, rfl⟩
        · have hp2 := hp
          rw [show (({ cache := _, playlog := _ } : AggState)).playlog = _ from rfl] at hp2
          rw [if_neg h30] at hp2
          exact Or.inl hp2
      · rw [if_neg h3] at hp
        exact Or.inl hp
    have hfold : ∀ (ks : List (ℕ × ℕ)) (s : AggState) (p : PlayRow),
        p ∈ (ks.foldl (fun s2 k => processGroup (now - 180) k s2) s).playlog →
          p ∈ s.playlog ∨ (p.duration = p.stop_time - p.start_time ∧
            p.royalty_amount = round2 (p.duration * (1 / 100))) := by
      intro ks
      induction ks with
      | nil =>
        intro s p hp
        exact Or.inl hp
      | cons k ks ih =>
        intro s p hp
        rw [List.foldl_cons] at hp
        rcases ih (processGroup (now - 180) k s) p hp with hin | hshape
        · exact hstep (now - 180) k s p hin
        · exact Or.inr hshape
    intro p hp
    rw [handle_eq] at hp
    exact hfold _ st p hp
  · decide

/-- Witness for C7 (amended): the emitted 35-second session from the
counterexample scenario carries `duration = 35 − 0` and royalty
`round2(35 · 0.01) = 0.35`. -/
theorem royalty_c7_amended_witness :
    (⟨1, 1, 0, 35, 35, 7 / 20⟩ : PlayRow) ∈ ([] : List PlayRow) ∨
      ((⟨1, 1, 0, 35, 35, 7 / 20⟩ : PlayRow).duration =
        (⟨1, 1, 0, 35, 35, 7 / 20⟩ : PlayRow).stop_time -
          (⟨1, 1, 0, 35, 35, 7 / 20⟩ : PlayRow).start_time ∧
       (⟨1, 1, 0, 35, 35, 7 / 20⟩ : PlayRow).royalty_amount =
        round2 ((⟨1, 1, 0, 35, 35, 7 / 20⟩ : PlayRow).duration * (1 / 100))) :=
  (royalty_c7_amended 40 ⟨[⟨1, 1, 0⟩, ⟨1, 1, 10⟩, ⟨1, 1, 25⟩, ⟨1, 1, 35⟩], []⟩).1
    ⟨1, 1, 0, 35, 35, 7 / 20⟩ (by decide)

/-! ## Claim C8: which cache rows an aggregation pass deletes -/

/-- C8 counterexample: two rows for `(1, 1)` inside the aggregation window
survive the pass untouched — the cleanup `matches.delete()` only runs for
groups with `count >= 3`, so the claimed purge of smaller groups does not
happen. -/
theorem cache_purge_c8_counterexample :
    (handle 180 ⟨[⟨1, 1, 10⟩, ⟨1, 1, 20⟩], []⟩).cache = [⟨1, 1, 10⟩, ⟨1, 1, 20⟩] ∧
    ((180 : ℚ) - 180 ≤ 10 ∧ (180 : ℚ) - 180 ≤ 20) := by
  constructor
  · decide
  · constructor <;> norm_num

/-- C8 (amended): after an aggregation pass at time `now`, a cache row is
deleted iff it lies inside the window (`matched_at ≥ now − 3 min`) and its
`(track, station)` group has at least three rows inside the window —
emitted or dropped.  Groups with fewer than three rows keep their rows, as
do rows older than the window. -/
theorem cache_purge_c8_amended (now : ℚ) (st : AggState) (r : MatchRow) :
    r ∈ (handle now st).cache ↔
      r ∈ st.cache ∧ ¬(now - 180 ≤ r.matched_at ∧
        3 ≤ (groupMatches (now - 180) (r.track, r.station) st.cache).length) := by
  rw [handle_eq,
    foldl_processGroup_cache (now - 180) _ st
      (nodup_keysInOrder ((st.cache.filter (fun r2 => decide (now - 180 ≤ r2.matched_at))).map
        (fun r2 => (r2.track, r2.station)))),
    List.mem_filter]
  constructor
  · rintro ⟨hmem, hpred⟩
    refine ⟨hmem, fun hcon => ?_⟩
    rw [Bool.not_eq_eq_eq_not, Bool.not_true, decide_eq_false_iff_not] at hpred
    apply hpred
    refine ⟨?_, hcon.1, hcon.2⟩
    rw [mem_keysInOrder, List.mem_map]
    exact ⟨r, List.mem_filter.mpr ⟨hmem, decide_eq_true hcon.1⟩, rfl⟩
  · rintro ⟨hmem, hno⟩
    refine ⟨hmem, ?_⟩
    rw [Bool.not_eq_eq_eq_not, Bool.not_true, decide_eq_false_iff_not]
    rintro ⟨_, hw, hcnt⟩
    exact hno ⟨hw, hcnt⟩

/-! ## Claim C9: what `matched_at` the cache stores -/

/-- C9: the claim is right about the intent and the aggregator's ordering,
but the model field `matched_at = DateTimeField(auto_now_add=True)` makes
Django discard the writer-supplied timestamp: `receive_match` called with
`match_time = 100` and committed at wall-clock time `200` stores
`matched_at = 200`, the row's insertion time. -/
theorem matched_at_insertion_time_c9 :
    receive_match 1 2 100 200 = { track := 1, station := 2, matched_at := 200 } ∧
    (receive_match 1 2 100 200).matched_at ≠ 100 := by
  refine ⟨rfl, by decide⟩

end Zamio
